import Mathlib

/-!
Verification of the arc-eager transition-based dependency parser
(`arcEager.py`): a shallow embedding of the parser state (`ArcState`),
its four transitions, the legality predicate `valid_action`, the static
oracle `get_next_action` and the dynamic-oracle cost `action_cost`,
together with theorems about the specified properties.
-/

namespace ArcEager

/-- A token of the sentence: `ArcNode(id, word, pos)` from the source. -/
structure ArcNode where
  id : Nat
  word : String
  pos : String
deriving DecidableEq, Repr

/-- The gold dependency graph: only queried through `has_edge(u, v)`
(networkx `DiGraph.has_edge` in the source), so it is embedded as its
edge-membership function. -/
structure Graph where
  hasEdge : Nat → Nat → Bool

/-- The parser state `ArcState(buffer, stack, relations)`.  `buffer` and
`stack` are head-first / top-first lists of tokens (Python index 0 is the
buffer head resp. stack top); `relations` is the list of
`(head_id, dependent_id)` pairs built so far.  The `verbose` flag only
controls printing and is dropped. -/
structure ArcState where
  buffer : List ArcNode
  stack : List ArcNode
  relations : List (Nat × Nat)
deriving DecidableEq, Repr

/-- Action code `ARC_LEFT = 1`. -/
def ARC_LEFT : Nat := 1
/-- Action code `ARC_RIGHT = 2`. -/
def ARC_RIGHT : Nat := 2
/-- Action code `SHIFT = 3`. -/
def SHIFT : Nat := 3
/-- Action code `REDUCE = 4`. -/
def REDUCE : Nat := 4
/-- The list `ACTIONS = [ARC_LEFT, ARC_RIGHT, SHIFT, REDUCE]`. -/
def ACTIONS : List Nat := [ARC_LEFT, ARC_RIGHT, SHIFT, REDUCE]

/-- `ArcState.arc_left`: if stack or buffer is empty the Python code raises
(`none` here); otherwise it appends the relation `(b.id, s.id)` (buffer head
is the head, stack top the dependent) and pops the stack. -/
def arc_left : ArcState → Option ArcState
  | ⟨b :: buf, s :: stk, rels⟩ => some ⟨b :: buf, stk, rels ++ [(b.id, s.id)]⟩
  | _ => none

/-- `ArcState.arc_right`: if stack or buffer is empty the Python code raises
(`none` here); otherwise it appends the relation `(s.id, b.id)`, removes the
buffer head and pushes it onto the stack. -/
def arc_right : ArcState → Option ArcState
  | ⟨b :: buf, s :: stk, rels⟩ => some ⟨buf, b :: s :: stk, rels ++ [(s.id, b.id)]⟩
  | _ => none

/-- `ArcState.shift`: raises on an empty buffer (`none` here); otherwise
moves the buffer head to the stack top. -/
def shift : ArcState → Option ArcState
  | ⟨b :: buf, stk, rels⟩ => some ⟨buf, b :: stk, rels⟩
  | _ => none

/-- `ArcState.reduce`: raises on an empty stack (`none` here); otherwise
pops the stack top. -/
def reduce : ArcState → Option ArcState
  | ⟨buf, _ :: stk, rels⟩ => some ⟨buf, stk, rels⟩
  | _ => none

/-- `ArcState.done`: true iff the buffer is empty and the stack holds
exactly one token. -/
def done (C : ArcState) : Bool :=
  C.buffer.isEmpty && C.stack.length == 1

/-- `ArcState.get_next_action(graph)`: the static oracle.  With `s` the
stack top and `b` the buffer head (both present): LEFT if the gold graph
has edge `(b.id, s.id)`, else RIGHT if it has `(s.id, b.id)`, else REDUCE
if some id `k` in `range(0, s.id)` has an edge to or from `b.id`, else
SHIFT.  When stack or buffer is empty: REDUCE if the stack has more than
one token, else SHIFT. -/
def get_next_action (C : ArcState) (g : Graph) : Nat :=
  match C.stack, C.buffer with
  | s :: _, b :: _ =>
    if g.hasEdge b.id s.id then ARC_LEFT
    else if g.hasEdge s.id b.id then ARC_RIGHT
    else if (List.range s.id).any (fun k => g.hasEdge k b.id || g.hasEdge b.id k) then REDUCE
    else SHIFT
  | _, _ => if C.stack.length > 1 then REDUCE else SHIFT

/-- `ArcState.do_action(action)`: dispatch to the four transition methods;
any other action raises (`none`). -/
def do_action (C : ArcState) (action : Nat) : Option ArcState :=
  if action == ARC_LEFT then arc_left C
  else if action == ARC_RIGHT then arc_right C
  else if action == SHIFT then shift C
  else if action == REDUCE then reduce C
  else none

/-- Models the Python comparison `l[1] == self.stack[0]` on line 181 of the
source: `l[1]` is an `int` (the dependent id stored in `relations`) while
`self.stack[0]` is an `ArcNode` object.  `ArcNode` defines no `__eq__`, so
Python falls back to identity comparison between an `int` and an `ArcNode`,
which is always `False`. -/
def pyEqIntNode (_n : Nat) (_t : ArcNode) : Bool := false

/-- `ArcState.valid_action(action)`: LEFT needs stack and buffer non-empty,
stack top id not 0, and no recorded relation whose second component
`l[1]` equals the stack-top object (the comparison `pyEqIntNode` — which
never fires, see its docstring); RIGHT needs stack and buffer non-empty;
SHIFT a non-empty buffer; REDUCE a non-empty stack (the stricter
has-a-head check is commented out in the source).  Any other action value
falls through every check and yields `true`, as in the source. -/
def valid_action (C : ArcState) (action : Nat) : Bool :=
  if action == ARC_LEFT then
    match C.stack, C.buffer with
    | s :: _, _ :: _ =>
      if s.id == 0 then false
      else if C.relations.any (fun l => pyEqIntNode l.2 s) then false
      else true
    | _, _ => false
  else if action == ARC_RIGHT then
    match C.stack, C.buffer with
    | _ :: _, _ :: _ => true
    | _, _ => false
  else if action == SHIFT then
    match C.buffer with
    | _ :: _ => true
    | [] => false
  else if action == REDUCE then
    match C.stack with
    | _ :: _ => true
    | [] => false
  else true

/-- `ArcState.action_cost(action, graph)`: returns `999` when
`valid_action` is false, otherwise the per-action loss count from the
source (each Python accumulation loop is a `foldl`; the loops over
`self.buffer` and `self.buffer + self.stack` include the buffer head
itself, exactly as in the source).  The dead `none` branches correspond to
index errors that the preceding validity check makes unreachable, and the
final `none` to the `raise` for an unknown action. -/
def action_cost (C : ArcState) (action : Nat) (g : Graph) : Option Nat :=
  if valid_action C action = false then some 999
  else if action == ARC_LEFT then
    match C.buffer, C.stack with
    | b :: _, s :: _ =>
      if g.hasEdge b.id s.id then some 0
      else if C.buffer.any (fun k => g.hasEdge k.id s.id) = false then some 0
      else some (C.buffer.foldl
        (fun loss k => if g.hasEdge k.id s.id || g.hasEdge s.id k.id then loss + 1 else loss) 0)
    | _, _ => none
  else if action == ARC_RIGHT then
    match C.buffer, C.stack with
    | b :: _, s :: _ =>
      if g.hasEdge s.id b.id then some 0
      else some (C.stack.foldl
        (fun loss k => if g.hasEdge b.id k.id then loss + 1 else loss)
        ((C.buffer ++ C.stack).foldl
          (fun loss k => if g.hasEdge k.id b.id then loss + 1 else loss) 0))
    | _, _ => none
  else if action == SHIFT then
    match C.buffer with
    | b :: _ => some (C.stack.foldl
        (fun loss k => if g.hasEdge k.id b.id || g.hasEdge b.id k.id then loss + 1 else loss) 0)
    | [] => none
  else if action == REDUCE then
    match C.stack with
    | s :: _ => some (C.buffer.foldl
        (fun loss k => if g.hasEdge s.id k.id then loss + 1 else loss) 0)
    | [] => none
  else none

/-- `ArcState.initialize_from_graph(graph)`: builds an `ArcState` whose
buffer is the node list of the graph (root first), with empty stack and
relations, and applies one `shift`, so that the root ends alone on the
stack.  The token list stands for the `ArcNode` list built from
`graph.nodes()`. -/
def init_from_graph (tokens : List ArcNode) : Option ArcState :=
  shift ⟨tokens, [], []⟩

/-- One step of the canonical (static-oracle) derivation: apply the chosen
action; if the transition raises, stay put (the driver would abort). -/
def step (g : Graph) (C : ArcState) : ArcState :=
  (do_action C (get_next_action C g)).getD C

/-- The canonical derivation: iterate `step` while the state is not
terminal. -/
def run (g : Graph) (C : ArcState) : Nat → ArcState
  | 0 => C
  | n + 1 => if done (run g C n) then run g C n else step g (run g C n)

/-- The root token (id 0) has no gold head. -/
def RootNoHead (g : Graph) : Prop := ∀ h : Nat, g.hasEdge h 0 = false

/-- Every id has at most one gold head. -/
def SingleHead (g : Graph) : Prop :=
  ∀ d h h2 : Nat, g.hasEdge h d = true → g.hasEdge h2 d = true → h = h2

/-- A well-formed gold tree (the part of the invariant the proofs use):
the root has no head and heads are unique. -/
def WellFormedTree (g : Graph) : Prop := RootNoHead g ∧ SingleHead g

/-- Projectivity as absence of crossing arcs: no two gold edges interleave
when laid out on the id line. -/
def Projective (g : Graph) : Prop :=
  ∀ a b c d : Nat, g.hasEdge a b = true → g.hasEdge c d = true →
    ¬(min a b < min c d ∧ min c d < max a b ∧ max a b < max c d)

/-- Structural invariant of configurations on the canonical derivation:
the stack is strictly decreasing in id from the top, the buffer strictly
increasing from the head, every stack id is below every buffer id, and the
state is not completely empty. -/
structure Good (C : ArcState) : Prop where
  stackSorted : C.stack.Pairwise (fun a b => b.id < a.id)
  bufferSorted : C.buffer.Pairwise (fun a b => a.id < b.id)
  stackLtBuffer : ∀ s ∈ C.stack, ∀ b ∈ C.buffer, s.id < b.id
  notBothEmpty : ¬(C.stack = [] ∧ C.buffer = [])

/-- Termination measure: twice the buffer size plus the stack size. -/
def mu (C : ArcState) : Nat := 2 * C.buffer.length + C.stack.length

/-- The accumulation loops of `action_cost` count the elements satisfying
the edge test. -/
lemma foldl_count {α : Type} (p : α → Bool) (l : List α) (n : Nat) :
    l.foldl (fun loss k => if p k then loss + 1 else loss) n = n + l.countP p := by
  induction l generalizing n with
  | nil => simp
  | cons a l ih =>
    simp only [List.foldl_cons, ih, List.countP_cons]
    cases h : p a
    · simp [h]
    · simp [h]
      omega

/-- The dependent check inside `valid_action` for LEFT never fires, because
the Python comparison it models is identically false. -/
lemma any_pyEq (R : List (Nat × Nat)) (s : ArcNode) :
    R.any (fun l => pyEqIntNode l.2 s) = false := by
  induction R with
  | nil => rfl
  | cons a R ih => simp [pyEqIntNode] at ih ⊢

lemma get_next_action_stack_nil (buf : List ArcNode) (rels : List (Nat × Nat)) (g : Graph) :
    get_next_action ⟨buf, [], rels⟩ g = SHIFT := rfl

lemma get_next_action_buf_nil (s : ArcNode) (stk : List ArcNode) (rels : List (Nat × Nat))
    (g : Graph) :
    get_next_action ⟨[], s :: stk, rels⟩ g =
      if (s :: stk).length > 1 then REDUCE else SHIFT := rfl

lemma get_next_action_cons (b : ArcNode) (buf : List ArcNode) (s : ArcNode)
    (stk : List ArcNode) (rels : List (Nat × Nat)) (g : Graph) :
    get_next_action ⟨b :: buf, s :: stk, rels⟩ g =
      (if g.hasEdge b.id s.id then ARC_LEFT
       else if g.hasEdge s.id b.id then ARC_RIGHT
       else if (List.range s.id).any (fun k => g.hasEdge k b.id || g.hasEdge b.id k) then REDUCE
       else SHIFT) := rfl

lemma valid_action_left_cons (b : ArcNode) (buf : List ArcNode) (s : ArcNode)
    (stk : List ArcNode) (rels : List (Nat × Nat)) (h0 : s.id ≠ 0) :
    valid_action ⟨b :: buf, s :: stk, rels⟩ ARC_LEFT = true := by
  simp [valid_action, ARC_LEFT, h0, any_pyEq]

lemma valid_action_right_cons (b : ArcNode) (buf : List ArcNode) (s : ArcNode)
    (stk : List ArcNode) (rels : List (Nat × Nat)) :
    valid_action ⟨b :: buf, s :: stk, rels⟩ ARC_RIGHT = true := rfl

lemma valid_action_shift_cons (b : ArcNode) (buf stk : List ArcNode)
    (rels : List (Nat × Nat)) :
    valid_action ⟨b :: buf, stk, rels⟩ SHIFT = true := rfl

lemma valid_action_reduce_cons (buf : List ArcNode) (s : ArcNode) (stk : List ArcNode)
    (rels : List (Nat × Nat)) :
    valid_action ⟨buf, s :: stk, rels⟩ REDUCE = true := rfl

lemma do_action_left (C : ArcState) : do_action C ARC_LEFT = arc_left C := rfl

lemma do_action_right (C : ArcState) : do_action C ARC_RIGHT = arc_right C := rfl

lemma do_action_shift (C : ArcState) : do_action C SHIFT = shift C := rfl

lemma do_action_reduce (C : ArcState) : do_action C REDUCE = reduce C := rfl

/-- Cost of LEFT when the gold edge `(b, s)` is present: zero. -/
lemma action_cost_left_hit (b : ArcNode) (buf : List ArcNode) (s : ArcNode)
    (stk : List ArcNode) (rels : List (Nat × Nat)) (g : Graph)
    (h0 : s.id ≠ 0) (hL : g.hasEdge b.id s.id = true) :
    action_cost ⟨b :: buf, s :: stk, rels⟩ ARC_LEFT g = some 0 := by
  unfold action_cost
  rw [valid_action_left_cons b buf s stk rels h0]
  simp [hL]

/-- Cost of RIGHT when the gold edge `(s, b)` is present: zero. -/
lemma action_cost_right_hit (b : ArcNode) (buf : List ArcNode) (s : ArcNode)
    (stk : List ArcNode) (rels : List (Nat × Nat)) (g : Graph)
    (hR : g.hasEdge s.id b.id = true) :
    action_cost ⟨b :: buf, s :: stk, rels⟩ ARC_RIGHT g = some 0 := by
  unfold action_cost
  rw [valid_action_right_cons b buf s stk rels]
  simp [ARC_RIGHT, ARC_LEFT, hR]

/-- Cost of SHIFT on a non-empty buffer: the count of stack tokens related
to the buffer head in the gold graph. -/
lemma action_cost_shift_eval (b : ArcNode) (buf stk : List ArcNode)
    (rels : List (Nat × Nat)) (g : Graph) :
    action_cost ⟨b :: buf, stk, rels⟩ SHIFT g =
      some (stk.countP (fun k => g.hasEdge k.id b.id || g.hasEdge b.id k.id)) := by
  have h : action_cost ⟨b :: buf, stk, rels⟩ SHIFT g =
      some (stk.foldl
        (fun loss k => if g.hasEdge k.id b.id || g.hasEdge b.id k.id then loss + 1 else loss)
        0) := rfl
  rw [h, foldl_count, Nat.zero_add]

/-- Cost of REDUCE on a non-empty stack: the count of buffer tokens whose
gold head is the stack top. -/
lemma action_cost_reduce_eval (buf : List ArcNode) (s : ArcNode) (stk : List ArcNode)
    (rels : List (Nat × Nat)) (g : Graph) :
    action_cost ⟨buf, s :: stk, rels⟩ REDUCE g =
      some (buf.countP (fun k => g.hasEdge s.id k.id)) := by
  have h : action_cost ⟨buf, s :: stk, rels⟩ REDUCE g =
      some (buf.foldl (fun loss k => if g.hasEdge s.id k.id then loss + 1 else loss) 0) := rfl
  rw [h, foldl_count, Nat.zero_add]

/-- Master lemma for the canonical derivation: from any structurally good,
non-terminal configuration, with a well-formed projective gold graph, the
action chosen by the static oracle has cost zero, applies successfully,
preserves the invariant and decreases the measure by exactly one. -/
lemma canonical_step (g : Graph) (C : ArcState)
    (hroot : RootNoHead g) (hproj : Projective g) (hG : Good C)
    (hnd : done C = false) :
    action_cost C (get_next_action C g) g = some 0 ∧
    ∃ C2, do_action C (get_next_action C g) = some C2 ∧ Good C2 ∧ mu C2 + 1 = mu C := by
  obtain ⟨buf, stk, rels⟩ := C
  obtain ⟨hss, hbs, hlt, hne⟩ := hG
  simp only at hss hbs hlt hne
  match stk, buf with
  | [], [] => exact absurd ⟨rfl, rfl⟩ hne
  | [], b :: buf' =>
    -- chosen action: SHIFT, with an empty stack
    rw [get_next_action_stack_nil]
    refine ⟨?_, ⟨buf', [b], rels⟩, ?_, ⟨?_, ?_, ?_, ?_⟩, ?_⟩
    · rw [action_cost_shift_eval]
      simp
    · rfl
    · simp
    · exact (List.pairwise_cons.mp hbs).2
    · intro t ht u hu
      simp only [List.mem_singleton] at ht
      subst ht
      exact (List.pairwise_cons.mp hbs).1 u hu
    · simp
    · simp [mu]
      omega
  | s :: stk', [] =>
    -- buffer empty, not done: the stack has at least two tokens; REDUCE
    have hstk' : stk' ≠ [] := by
      intro h
      subst h
      simp [done] at hnd
    match stk', hstk' with
    | s2 :: stk'', _ =>
      rw [get_next_action_buf_nil]
      have hgt : (s :: s2 :: stk'').length > 1 := by simp
      rw [if_pos hgt]
      refine ⟨?_, ⟨[], s2 :: stk'', rels⟩, ?_, ⟨?_, ?_, ?_, ?_⟩, ?_⟩
      · rw [action_cost_reduce_eval]
        simp
      · rfl
      · exact (List.pairwise_cons.mp hss).2
      · exact hbs
      · intro t ht u hu
        simp at hu
      · simp
      · simp [mu]
  | s :: stk', b :: buf' =>
    have hsb : s.id < b.id := hlt s (by simp) b (by simp)
    rw [get_next_action_cons]
    by_cases hL : g.hasEdge b.id s.id
    · -- LEFT_ARC: the gold edge (b, s) exists
      have hs0 : s.id ≠ 0 := by
        intro h0
        rw [h0] at hL
        rw [hroot b.id] at hL
        exact Bool.false_ne_true hL
      rw [if_pos hL]
      refine ⟨?_, ⟨b :: buf', stk', rels ++ [(b.id, s.id)]⟩, ?_, ⟨?_, ?_, ?_, ?_⟩, ?_⟩
      · exact action_cost_left_hit b buf' s stk' rels g hs0 hL
      · rw [do_action_left]
        rfl
      · exact (List.pairwise_cons.mp hss).2
      · exact hbs
      · exact fun t ht u hu => hlt t (List.mem_cons_of_mem s ht) u hu
      · simp
      · simp [mu]
        omega
    · rw [if_neg hL]
      by_cases hR : g.hasEdge s.id b.id
      · -- RIGHT_ARC: the gold edge (s, b) exists
        rw [if_pos hR]
        refine ⟨?_, ⟨buf', b :: s :: stk', rels ++ [(s.id, b.id)]⟩, ?_, ⟨?_, ?_, ?_, ?_⟩, ?_⟩
        · exact action_cost_right_hit b buf' s stk' rels g hR
        · rw [do_action_right]
          rfl
        · exact List.pairwise_cons.mpr
            ⟨fun t ht => hlt t ht b (by simp), hss⟩
        · exact (List.pairwise_cons.mp hbs).2
        · intro t ht u hu
          rcases List.mem_cons.mp ht with h | h
          · subst h
            exact (List.pairwise_cons.mp hbs).1 u hu
          · exact hlt t h u (List.mem_cons_of_mem b hu)
        · simp
        · simp [mu]
          omega
      · rw [if_neg hR]
        have hL' : g.hasEdge b.id s.id = false := Bool.not_eq_true _ ▸ eq_false_of_ne_true hL
        have hR' : g.hasEdge s.id b.id = false := Bool.not_eq_true _ ▸ eq_false_of_ne_true hR
        by_cases hA : (List.range s.id).any (fun k => g.hasEdge k b.id || g.hasEdge b.id k)
        · -- REDUCE by the heuristic: b relates to an id below the stack top
          rw [if_pos hA]
          obtain ⟨k0, hk0m, hk0⟩ := List.any_eq_true.mp hA
          have hk0lt : k0 < s.id := List.mem_range.mp hk0m
          have hdep : ∀ t ∈ b :: buf', g.hasEdge s.id t.id = false := by
            intro t ht
            rcases List.mem_cons.mp ht with h | h
            · subst h
              exact hR'
            · have hbt : b.id < t.id := (List.pairwise_cons.mp hbs).1 t h
              by_contra hst
              have hst' : g.hasEdge s.id t.id = true := by
                revert hst
                cases g.hasEdge s.id t.id
                · intro h2
                  exact absurd rfl h2
                · intro _
                  rfl
              have hor : g.hasEdge k0 b.id = true ∨ g.hasEdge b.id k0 = true := by
                revert hk0
                cases h1 : g.hasEdge k0 b.id
                · cases h2 : g.hasEdge b.id k0
                  · intro h3
                    exact absurd h3 (by simp)
                  · intro _
                    exact Or.inr rfl
                · intro _
                  exact Or.inl rfl
              rcases hor with he | he
              · refine hproj k0 b.id s.id t.id he hst' ⟨?_, ?_, ?_⟩ <;> omega
              · refine hproj b.id k0 s.id t.id he hst' ⟨?_, ?_, ?_⟩ <;> omega
          refine ⟨?_, ⟨b :: buf', stk', rels⟩, ?_, ⟨?_, ?_, ?_, ?_⟩, ?_⟩
          · rw [action_cost_reduce_eval]
            have : (b :: buf').countP (fun k => g.hasEdge s.id k.id) = 0 :=
              List.countP_eq_zero.mpr (by
                intro t ht
                simp [hdep t ht])
            rw [this]
          · rw [do_action_reduce]
            rfl
          · exact (List.pairwise_cons.mp hss).2
          · exact hbs
          · exact fun t ht u hu => hlt t (List.mem_cons_of_mem s ht) u hu
          · simp
          · simp [mu]
            omega
        · -- SHIFT: no relation between the stack and the buffer head
          rw [if_neg hA]
          have hnost : ∀ t ∈ s :: stk',
              (g.hasEdge t.id b.id || g.hasEdge b.id t.id) = false := by
            intro t ht
            rcases List.mem_cons.mp ht with h | h
            · subst h
              rw [hL', hR']
              rfl
            · have htlt : t.id < s.id := (List.pairwise_cons.mp hss).1 t h
              have hAall := List.any_eq_false.mp (eq_false_of_ne_true hA) t.id
                (List.mem_range.mpr htlt)
              simpa using hAall
          refine ⟨?_, ⟨buf', b :: s :: stk', rels⟩, ?_, ⟨?_, ?_, ?_, ?_⟩, ?_⟩
          · rw [action_cost_shift_eval]
            have : (s :: stk').countP
                (fun k => g.hasEdge k.id b.id || g.hasEdge b.id k.id) = 0 :=
              List.countP_eq_zero.mpr (by
                intro t ht
                simp [hnost t ht])
            rw [this]
          · rw [do_action_shift]
            rfl
          · exact List.pairwise_cons.mpr
              ⟨fun t ht => hlt t ht b (by simp), hss⟩
          · exact (List.pairwise_cons.mp hbs).2
          · intro t ht u hu
            rcases List.mem_cons.mp ht with h | h
            · subst h
              exact (List.pairwise_cons.mp hbs).1 u hu
            · exact hlt t h u (List.mem_cons_of_mem b hu)
          · simp
          · simp [mu]
            omega

/-- The initial configuration built from an id-sorted token list satisfies
the structural invariant. -/
lemma good_init (tokens : List ArcNode) (C0 : ArcState)
    (hsort : tokens.Pairwise (fun a b => a.id < b.id))
    (hinit : init_from_graph tokens = some C0) : Good C0 := by
  match tokens, hinit with
  | t :: rest, hinit =>
    have hC0 : C0 = ⟨rest, [t], []⟩ := by
      have : init_from_graph (t :: rest) = some ⟨rest, [t], []⟩ := rfl
      rw [this] at hinit
      exact (Option.some_inj.mp hinit).symm
    subst hC0
    refine ⟨?_, ?_, ?_, ?_⟩
    · simp
    · exact (List.pairwise_cons.mp hsort).2
    · intro u hu v hv
      simp only [List.mem_singleton] at hu
      subst hu
      exact (List.pairwise_cons.mp hsort).1 v hv
    · simp

/-- The structural invariant holds at every step of the canonical
derivation. -/
lemma good_run (g : Graph) (C0 : ArcState)
    (hroot : RootNoHead g) (hproj : Projective g) (hG : Good C0) :
    ∀ n, Good (run g C0 n) := by
  intro n
  induction n with
  | zero => exact hG
  | succ n ih =>
    by_cases hd : done (run g C0 n) = true
    · simp only [run, hd, if_true]
      exact ih
    · have hd' : done (run g C0 n) = false := eq_false_of_ne_true hd
      obtain ⟨-, C2, hdo, hG2, -⟩ := canonical_step g (run g C0 n) hroot hproj ih hd'
      simp only [run, hd, if_false]
      rw [show step g (run g C0 n) = C2 by rw [step, hdo]; rfl]
      exact hG2

/-- Along the canonical derivation the measure `mu` decreases by one per
step until the terminal configuration is reached. -/
lemma mu_run (g : Graph) (C0 : ArcState)
    (hroot : RootNoHead g) (hproj : Projective g) (hG : Good C0) :
    ∀ n, done (run g C0 n) = false → mu (run g C0 n) + n ≤ mu C0 := by
  intro n
  induction n with
  | zero => simp [run]
  | succ n ih =>
    intro hnd
    by_cases hd : done (run g C0 n) = true
    · exfalso
      rw [show run g C0 (n + 1) = run g C0 n by simp only [run, hd, if_true]] at hnd
      rw [hd] at hnd
      exact Bool.noConfusion hnd
    · have hd' : done (run g C0 n) = false := eq_false_of_ne_true hd
      obtain ⟨-, C2, hdo, -, hmu⟩ :=
        canonical_step g (run g C0 n) hroot hproj (good_run g C0 hroot hproj hG n) hd'
      have hstep : run g C0 (n + 1) = C2 := by
        simp only [run, hd, if_false]
        rw [step, hdo]
        rfl
      rw [hstep]
      have := ih hd'
      omega

/-- Example sentence from the specification: root, Bob, saw, Alice. -/
def exTokens : List ArcNode :=
  [⟨0, "ROOT", "ROOT"⟩, ⟨1, "Bob", "NNP"⟩, ⟨2, "saw", "VBD"⟩, ⟨3, "Alice", "NNP"⟩]

/-- Gold tree of the example: saw heads Bob and Alice, root heads saw. -/
def exGraph : Graph :=
  ⟨fun u v => decide ((u = 0 ∧ v = 2) ∨ (u = 2 ∧ v = 1) ∨ (u = 2 ∧ v = 3))⟩

/-- The configuration produced by initializing from the example sentence. -/
def exC0 : ArcState :=
  ⟨[⟨1, "Bob", "NNP"⟩, ⟨2, "saw", "VBD"⟩, ⟨3, "Alice", "NNP"⟩], [⟨0, "ROOT", "ROOT"⟩], []⟩

lemma exGraph_root : RootNoHead exGraph := by
  intro h
  simp [exGraph]

lemma exGraph_single : SingleHead exGraph := by
  intro d h h2 h1e h2e
  simp [exGraph] at h1e h2e
  omega

lemma exGraph_proj : Projective exGraph := by
  intro a b c d hab hcd
  simp [exGraph] at hab hcd
  rcases hab with ⟨ha, hb⟩ | ⟨ha, hb⟩ | ⟨ha, hb⟩ <;>
    rcases hcd with ⟨hc, hd⟩ | ⟨hc, hd⟩ | ⟨hc, hd⟩ <;>
      subst ha <;> subst hb <;> subst hc <;> subst hd <;> decide

lemma exTokens_sorted : exTokens.Pairwise (fun a b => a.id < b.id) := by
  decide

/-- Claim C4: for every well-formed projective gold tree, at every step
along the derivation generated by repeatedly applying the action chosen by
`get_next_action` starting from the initial configuration, the
dynamic-oracle cost of the chosen action in the current configuration
is 0. -/
theorem c4_canonical_cost_zero (g : Graph) (tokens : List ArcNode) (C0 : ArcState)
    (hwf : WellFormedTree g) (hproj : Projective g)
    (hsort : tokens.Pairwise (fun a b => a.id < b.id))
    (hinit : init_from_graph tokens = some C0) (n : Nat)
    (hnd : done (run g C0 n) = false) :
    action_cost (run g C0 n) (get_next_action (run g C0 n) g) g = some 0 :=
  (canonical_step g (run g C0 n) hwf.1 hproj
    (good_run g C0 hwf.1 hproj (good_init tokens C0 hsort hinit) n) hnd).1

/-- Witness for C4 at the example sentence, step 0. -/
theorem c4_canonical_cost_zero_witness :
    action_cost (run exGraph exC0 0) (get_next_action (run exGraph exC0 0) exGraph)
      exGraph = some 0 :=
  c4_canonical_cost_zero exGraph exTokens exC0 ⟨exGraph_root, exGraph_single⟩
    exGraph_proj exTokens_sorted rfl 0 (by decide)

/-- Claim C5: for every sentence with a well-formed projective gold tree,
the canonical derivation reaches a terminal configuration (empty buffer,
one-token stack) within `2 * n` transitions, where `n` is the number of
non-root tokens (the buffer size of the initial configuration). -/
theorem c5_termination (g : Graph) (tokens : List ArcNode) (C0 : ArcState)
    (hwf : WellFormedTree g) (hproj : Projective g)
    (hsort : tokens.Pairwise (fun a b => a.id < b.id))
    (hinit : init_from_graph tokens = some C0) :
    done (run g C0 (2 * C0.buffer.length)) = true := by
  have hG0 : Good C0 := good_init tokens C0 hsort hinit
  have hstack1 : C0.stack.length = 1 := by
    match tokens, hinit with
    | t :: rest, hinit =>
      have : init_from_graph (t :: rest) = some ⟨rest, [t], []⟩ := rfl
      rw [this] at hinit
      rw [← Option.some_inj.mp hinit]
      rfl
  by_contra hnd
  have hnd' : done (run g C0 (2 * C0.buffer.length)) = false := eq_false_of_ne_true hnd
  have hmu := mu_run g C0 hwf.1 hproj hG0 (2 * C0.buffer.length) hnd'
  have hmuC0 : mu C0 = 2 * C0.buffer.length + 1 := by
    rw [mu, hstack1]
  have hsmall : mu (run g C0 (2 * C0.buffer.length)) ≤ 1 := by omega
  set R := run g C0 (2 * C0.buffer.length) with hR
  have hGR : Good R := good_run g C0 hwf.1 hproj hG0 _
  have hbuf0 : R.buffer.length = 0 := by
    have := hsmall
    rw [mu] at this
    omega
  have hbufnil : R.buffer = [] := List.length_eq_zero.mp hbuf0
  have hstklen : R.stack.length ≤ 1 := by
    have := hsmall
    rw [mu] at this
    omega
  have hstkne : R.stack ≠ [] := by
    intro h
    exact hGR.notBothEmpty ⟨h, hbufnil⟩
  have hstk1 : R.stack.length = 1 := by
    have : R.stack.length ≠ 0 := fun h => hstkne (List.length_eq_zero.mp h)
    omega
  have : done R = true := by
    rw [done, hbufnil, hstk1]
    rfl
  rw [this] at hnd'
  exact Bool.noConfusion hnd'

/-- Witness for C5 at the example sentence: the derivation is terminal
after `2 * 3` steps. -/
theorem c5_termination_witness :
    done (run exGraph exC0 (2 * exC0.buffer.length)) = true :=
  c5_termination exGraph exTokens exC0 ⟨exGraph_root, exGraph_single⟩
    exGraph_proj exTokens_sorted rfl

/-- The static oracle as worded by the specification (claim C6): with both
stack and buffer non-empty, LEFT on gold edge `(b, s)`, else RIGHT on gold
edge `(s, b)`, else REDUCE when some id `k < s.id` has a gold edge to or
from `b`, else SHIFT; otherwise REDUCE when the stack holds more than one
token, and SHIFT in every remaining case. -/
def spec_next_action (C : ArcState) (g : Graph) : Nat :=
  match C.stack, C.buffer with
  | s :: _, b :: _ =>
    if g.hasEdge b.id s.id = true then ARC_LEFT
    else if g.hasEdge s.id b.id = true then ARC_RIGHT
    else if ∃ k, k < s.id ∧ (g.hasEdge k b.id = true ∨ g.hasEdge b.id k = true) then REDUCE
    else SHIFT
  | _, _ => if C.stack.length > 1 then REDUCE else SHIFT

/-- Claim C6: the implemented static oracle decides exactly in the order
stated by the specification. -/
theorem c6_next_action_order (C : ArcState) (g : Graph) :
    get_next_action C g = spec_next_action C g := by
  obtain ⟨buf, stk, rels⟩ := C
  match stk, buf with
  | [], _ => rfl
  | _ :: _, [] => rfl
  | s :: stk', b :: buf' =>
    rw [get_next_action_cons]
    show _ = spec_next_action ⟨b :: buf', s :: stk', rels⟩ g
    have hspec : spec_next_action ⟨b :: buf', s :: stk', rels⟩ g =
        (if g.hasEdge b.id s.id = true then ARC_LEFT
         else if g.hasEdge s.id b.id = true then ARC_RIGHT
         else if ∃ k, k < s.id ∧ (g.hasEdge k b.id = true ∨ g.hasEdge b.id k = true) then REDUCE
         else SHIFT) := rfl
    rw [hspec]
    by_cases h1 : g.hasEdge b.id s.id = true
    · rw [if_pos h1, if_pos h1]
    · rw [if_neg h1, if_neg h1]
      by_cases h2 : g.hasEdge s.id b.id = true
      · rw [if_pos h2, if_pos h2]
      · rw [if_neg h2, if_neg h2]
        have hiff : ((List.range s.id).any
              (fun k => g.hasEdge k b.id || g.hasEdge b.id k) = true) ↔
            (∃ k, k < s.id ∧ (g.hasEdge k b.id = true ∨ g.hasEdge b.id k = true)) := by
          rw [List.any_eq_true]
          constructor
          · rintro ⟨k, hk, hor⟩
            exact ⟨k, List.mem_range.mp hk, by simpa using hor⟩
          · rintro ⟨k, hk, hor⟩
            exact ⟨k, List.mem_range.mpr hk, by simpa using hor⟩
        by_cases h3 : ∃ k, k < s.id ∧ (g.hasEdge k b.id = true ∨ g.hasEdge b.id k = true)
        · rw [if_pos (hiff.mpr h3), if_pos h3]
        · rw [if_neg (fun hc => h3 (hiff.mp hc)), if_neg h3]

/-- Cost of RIGHT when the gold edge `(s, b)` is absent: the count of
buffer-and-stack tokens that are gold heads of `b` plus the count of stack
tokens of which `b` is the gold head. -/
lemma action_cost_right_miss (b : ArcNode) (buf : List ArcNode) (s : ArcNode)
    (stk : List ArcNode) (rels : List (Nat × Nat)) (g : Graph)
    (hR : g.hasEdge s.id b.id = false) :
    action_cost ⟨b :: buf, s :: stk, rels⟩ ARC_RIGHT g =
      some (((b :: buf) ++ (s :: stk)).countP (fun k => g.hasEdge k.id b.id)
        + (s :: stk).countP (fun k => g.hasEdge b.id k.id)) := by
  have h : action_cost ⟨b :: buf, s :: stk, rels⟩ ARC_RIGHT g =
      if g.hasEdge s.id b.id = true then some 0
      else some ((s :: stk).foldl
        (fun loss k => if g.hasEdge b.id k.id then loss + 1 else loss)
        (((b :: buf) ++ (s :: stk)).foldl
          (fun loss k => if g.hasEdge k.id b.id then loss + 1 else loss) 0)) := rfl
  rw [h, if_neg (by simp [hR]), foldl_count, foldl_count, Nat.zero_add]

/-- Claim C7: in every configuration where RIGHT is legal (stack and buffer
non-empty, with stack top `s` and buffer head `b`), the cost of RIGHT is 0
when the gold tree has edge `(s.id, b.id)` and otherwise the count of gold
edges `(k, b.id)` over buffer-and-stack tokens `k` plus the count of gold
edges `(b.id, k)` over stack tokens `k`. -/
theorem c7_right_arc_cost (C : ArcState) (g : Graph) (s b : ArcNode)
    (stk buf : List ArcNode) (hs : C.stack = s :: stk) (hb : C.buffer = b :: buf) :
    action_cost C ARC_RIGHT g =
      some (if g.hasEdge s.id b.id = true then 0
        else (C.buffer ++ C.stack).countP (fun k => g.hasEdge k.id b.id)
          + C.stack.countP (fun k => g.hasEdge b.id k.id)) := by
  obtain ⟨B, S, R⟩ := C
  simp only at hs hb
  subst hs
  subst hb
  by_cases hR : g.hasEdge s.id b.id = true
  · rw [action_cost_right_hit b buf s stk R g hR, if_pos hR]
  · have hR' : g.hasEdge s.id b.id = false := eq_false_of_ne_true hR
    rw [action_cost_right_miss b buf s stk R g hR', if_neg hR]

/-- Witness for C7: RIGHT at the example initial configuration has cost 1
(the gold head of Bob, namely saw, is still in the buffer). -/
theorem c7_right_arc_cost_witness : action_cost exC0 ARC_RIGHT exGraph = some 1 :=
  (c7_right_arc_cost exC0 exGraph ⟨0, "ROOT", "ROOT"⟩ ⟨1, "Bob", "NNP"⟩ []
    [⟨2, "saw", "VBD"⟩, ⟨3, "Alice", "NNP"⟩] rfl rfl).trans (by decide)

/-- Claim C10: on an empty buffer with at most one stack token (in
particular in every terminal configuration) the static oracle returns
SHIFT, which `valid_action` rejects there. -/
theorem c10_terminal_oracle (C : ArcState) (g : Graph) (hb : C.buffer = [])
    (hs : C.stack.length ≤ 1) :
    get_next_action C g = SHIFT ∧ valid_action C SHIFT = false := by
  obtain ⟨buf, stk, rels⟩ := C
  simp only at hb hs
  subst hb
  match stk, hs with
  | [], _ => exact ⟨rfl, rfl⟩
  | [s], _ => exact ⟨rfl, rfl⟩
  | s :: s2 :: stk', hs => simp at hs

/-- Witness for C10 at the terminal configuration of the example. -/
theorem c10_terminal_oracle_witness :
    get_next_action ⟨[], [⟨0, "ROOT", "ROOT"⟩], [(2, 1), (0, 2), (2, 3)]⟩ exGraph = SHIFT ∧
    valid_action ⟨[], [⟨0, "ROOT", "ROOT"⟩], [(2, 1), (0, 2), (2, 3)]⟩ SHIFT = false :=
  c10_terminal_oracle ⟨[], [⟨0, "ROOT", "ROOT"⟩], [(2, 1), (0, 2), (2, 3)]⟩ exGraph rfl
    (by decide)

/-- Configuration refuting claim C1: the stack top is the root, so
`valid_action` rejects LEFT, but `do_action` applies it anyway. -/
def c1x : ArcState := ⟨[⟨1, "Bob", "NNP"⟩], [⟨0, "ROOT", "ROOT"⟩], []⟩

/-- Counterexample to claim C1: at `c1x`, LEFT is illegal by
`valid_action` (the stack top is the root), yet `do_action` does not fail —
the illegal action is silently applied. -/
theorem c1_counterexample :
    valid_action c1x ARC_LEFT = false ∧ do_action c1x ARC_LEFT ≠ none := by
  decide

/-- Claim C1 as amended: for the four actions, `do_action` fails exactly
when the emptiness precondition of the dispatched transition fails (LEFT
and RIGHT: empty stack or empty buffer; SHIFT: empty buffer; REDUCE: empty
stack).  The remaining LEFT legality conditions are not checked by
`do_action`. -/
theorem c1_do_action_failure_iff (C : ArcState) (a : Nat) (ha : a ∈ ACTIONS) :
    do_action C a = none ↔
      (((a = ARC_LEFT ∨ a = ARC_RIGHT) ∧ (C.stack = [] ∨ C.buffer = []))
        ∨ (a = SHIFT ∧ C.buffer = [])
        ∨ (a = REDUCE ∧ C.stack = [])) := by
  obtain ⟨buf, stk, rels⟩ := C
  simp only [ACTIONS, List.mem_cons, List.not_mem_nil, or_false] at ha
  rcases ha with h | h | h | h <;> subst h <;>
    cases stk <;> cases buf <;>
      simp [do_action, arc_left, arc_right, shift, reduce,
        ARC_LEFT, ARC_RIGHT, SHIFT, REDUCE]

/-- Witness for the amended C1: SHIFT on an empty buffer fails. -/
theorem c1_do_action_failure_iff_witness :
    do_action ⟨[], [⟨0, "ROOT", "ROOT"⟩], []⟩ SHIFT = none ↔
      (((SHIFT = ARC_LEFT ∨ SHIFT = ARC_RIGHT) ∧
          ((⟨[], [⟨0, "ROOT", "ROOT"⟩], []⟩ : ArcState).stack = [] ∨
           (⟨[], [⟨0, "ROOT", "ROOT"⟩], []⟩ : ArcState).buffer = []))
        ∨ (SHIFT = SHIFT ∧ (⟨[], [⟨0, "ROOT", "ROOT"⟩], []⟩ : ArcState).buffer = [])
        ∨ (SHIFT = REDUCE ∧ (⟨[], [⟨0, "ROOT", "ROOT"⟩], []⟩ : ArcState).stack = [])) :=
  c1_do_action_failure_iff ⟨[], [⟨0, "ROOT", "ROOT"⟩], []⟩ SHIFT (by decide)

/-- Configuration exhibiting the `valid_action` LEFT bug (claim C2): token
1 is already recorded as a dependent of token 2, and is again the stack
top offered to LEFT. -/
def c2x : ArcState := ⟨[⟨2, "saw", "VBD"⟩], [⟨1, "Bob", "NNP"⟩], [(2, 1)]⟩

/-- Claim C2, evaluated at the failing input: although an arc with the
stack top as dependent is already recorded, `valid_action` still accepts
LEFT, because the comparison on line 181 of the source tests the stored
dependent id against the `ArcNode` object itself (`pyEqIntNode`) instead
of its id, and therefore never fires. -/
theorem c2_code_eval : valid_action c2x ARC_LEFT = true := by decide

/-- Claim C3 as amended: for the four actions, `action_cost` returns the
sentinel `999` whenever `valid_action` is false; when the action is legal
it returns a genuine count bounded by `buffer size + 2 * stack size`, so
the sentinel strictly outranks genuine costs only on configurations small
enough, not for sentences of every length. -/
theorem c3_cost_sentinel (C : ArcState) (g : Graph) (a : Nat) (ha : a ∈ ACTIONS) :
    (valid_action C a = false → action_cost C a g = some 999) ∧
    (valid_action C a = true →
      action_cost C a g ≠ none ∧
      (action_cost C a g).getD 0 ≤ C.buffer.length + 2 * C.stack.length) := by
  constructor
  · intro h
    unfold action_cost
    rw [if_pos h]
  · intro hv
    obtain ⟨buf, stk, rels⟩ := C
    simp only [ACTIONS, List.mem_cons, List.not_mem_nil, or_false] at ha
    rcases ha with h | h | h | h <;> subst h
    · -- LEFT
      match stk, buf, hv with
      | [], buf, hv => exact Bool.noConfusion hv
      | s :: stk', [], hv => exact Bool.noConfusion hv
      | s :: stk', b :: buf', hv =>
        have h0 : s.id ≠ 0 := by
          intro h0
          rw [show valid_action ⟨b :: buf', s :: stk', rels⟩ ARC_LEFT
              = (if s.id == 0 then false
                 else if rels.any (fun l => pyEqIntNode l.2 s) then false else true) from rfl,
            if_pos (by simp [h0])] at hv
          exact Bool.noConfusion hv
        have hbase : action_cost ⟨b :: buf', s :: stk', rels⟩ ARC_LEFT g =
            if valid_action ⟨b :: buf', s :: stk', rels⟩ ARC_LEFT = false then some 999
            else if g.hasEdge b.id s.id = true then some 0
            else if (b :: buf').any (fun k => g.hasEdge k.id s.id) = false then some 0
            else some ((b :: buf').foldl
              (fun loss k =>
                if g.hasEdge k.id s.id || g.hasEdge s.id k.id then loss + 1 else loss) 0) := rfl
        rw [hbase, if_neg (by rw [hv]; exact fun hc => Bool.noConfusion hc), foldl_count,
          Nat.zero_add]
        by_cases h1 : g.hasEdge b.id s.id = true
        · rw [if_pos h1]
          simp
        · rw [if_neg h1]
          by_cases h2 : (b :: buf').any (fun k => g.hasEdge k.id s.id) = false
          · rw [if_pos h2]
            simp
          · rw [if_neg h2]
            refine ⟨by simp, ?_⟩
            have hle := List.countP_le_length
              (fun k => g.hasEdge k.id s.id || g.hasEdge s.id k.id) (l := b :: buf')
            simp only [Option.getD_some, List.length_cons] at hle ⊢
            omega
    · -- RIGHT
      match stk, buf, hv with
      | [], buf, hv => exact Bool.noConfusion hv
      | s :: stk', [], hv => exact Bool.noConfusion hv
      | s :: stk', b :: buf', hv =>
        by_cases hR : g.hasEdge s.id b.id = true
        · rw [action_cost_right_hit b buf' s stk' rels g hR]
          simp
        · rw [action_cost_right_miss b buf' s stk' rels g (eq_false_of_ne_true hR)]
          refine ⟨by simp, ?_⟩
          have hle1 := List.countP_le_length
            (fun k => g.hasEdge k.id b.id) (l := (b :: buf') ++ (s :: stk'))
          have hle2 := List.countP_le_length
            (fun k => g.hasEdge b.id k.id) (l := s :: stk')
          simp only [Option.getD_some, List.length_append, List.length_cons] at hle1 hle2 ⊢
          omega
    · -- SHIFT
      match buf, hv with
      | [], hv => exact Bool.noConfusion hv
      | b :: buf', hv =>
        rw [action_cost_shift_eval]
        refine ⟨by simp, ?_⟩
        have hle := List.countP_le_length
          (fun k => g.hasEdge k.id b.id || g.hasEdge b.id k.id) (l := stk)
        simp only [Option.getD_some, List.length_cons] at hle ⊢
        omega
    · -- REDUCE
      match stk, hv with
      | [], hv => exact Bool.noConfusion hv
      | s :: stk', hv =>
        rw [action_cost_reduce_eval]
        refine ⟨by simp, ?_⟩
        have hle := List.countP_le_length (fun k => g.hasEdge s.id k.id) (l := buf)
        simp only [Option.getD_some, List.length_cons] at hle ⊢
        omega

/-- Witness for the amended C3 at the example initial configuration with
SHIFT. -/
theorem c3_cost_sentinel_witness :
    (valid_action exC0 SHIFT = false → action_cost exC0 SHIFT exGraph = some 999) ∧
    (valid_action exC0 SHIFT = true →
      action_cost exC0 SHIFT exGraph ≠ none ∧
      (action_cost exC0 SHIFT exGraph).getD 0 ≤
        exC0.buffer.length + 2 * exC0.stack.length) :=
  c3_cost_sentinel exC0 exGraph SHIFT (by decide)

/-- Elements of the long stack tail: ids 2 to 999. -/
def c3L : List ArcNode := (List.range 998).map (fun k => ⟨k + 2, "w", "N"⟩)

/-- The buffer head of the long configuration: token 1000. -/
def c3A : ArcNode := ⟨1000, "w", "N"⟩

/-- The stack top of the long configuration: token 1. -/
def c3B : ArcNode := ⟨1, "w", "N"⟩

/-- A long configuration: buffer head is token 1000, the stack holds
tokens 1 to 999. -/
def c3C : ArcState := ⟨[c3A], c3B :: c3L, []⟩

/-- Gold tree for the long configuration: token 1000 heads tokens 1 to 999
and the root heads token 1000 (a well-formed projective tree). -/
def c3g : Graph :=
  ⟨fun u v => decide ((u = 1000 ∧ 1 ≤ v ∧ v ≤ 999) ∨ (u = 0 ∧ v = 1000))⟩

/-- Counterexample to claim C3: in configuration `c3C` the action RIGHT is
legal, and its genuine cost is exactly `999` — the same value as the
`INFEASIBLE` sentinel, so the sentinel is not strictly greater than every
genuine cost and is not returned only for illegal actions. -/
theorem c3_counterexample :
    valid_action c3C ARC_RIGHT = true ∧ action_cost c3C ARC_RIGHT c3g = some 999 := by
  have hmem : ∀ t ∈ c3L, 2 ≤ t.id ∧ t.id ≤ 999 := by
    intro t ht
    obtain ⟨k, hk, rfl⟩ := List.mem_map.mp ht
    have hk2 := List.mem_range.mp hk
    exact ⟨show 2 ≤ k + 2 by omega, show k + 2 ≤ 999 by omega⟩
  constructor
  · rfl
  · have hR : c3g.hasEdge c3B.id c3A.id = false := by decide
    have heval := action_cost_right_miss c3A [] c3B c3L [] c3g hR
    show action_cost ⟨[c3A], c3B :: c3L, []⟩ ARC_RIGHT c3g = some 999
    rw [heval]
    have hL1 : c3L.countP (fun k => c3g.hasEdge k.id c3A.id) = 0 := by
      apply List.countP_eq_zero.mpr
      intro t ht
      obtain ⟨h2, h9⟩ := hmem t ht
      show ¬(decide ((t.id = 1000 ∧ 1 ≤ 1000 ∧ 1000 ≤ 999) ∨
        (t.id = 0 ∧ (1000 : Nat) = 1000)) = true)
      rw [decide_eq_true_eq]
      omega
    have hL2 : c3L.countP (fun k => c3g.hasEdge c3A.id k.id) = 998 := by
      have hall : ∀ t ∈ c3L, (fun k : ArcNode => c3g.hasEdge c3A.id k.id) t = true := by
        intro t ht
        obtain ⟨h2, h9⟩ := hmem t ht
        show decide (((1000 : Nat) = 1000 ∧ 1 ≤ t.id ∧ t.id ≤ 999) ∨
          ((1000 : Nat) = 0 ∧ t.id = 1000)) = true
        rw [decide_eq_true_eq]
        omega
      rw [List.countP_eq_length.mpr hall]
      show c3L.length = 998
      simp [c3L]
    simp only [List.cons_append, List.nil_append, List.countP_cons, hL1, hL2]
    norm_num [c3g, c3A, c3B]

/-- Configurations reachable from the initialized state by applying only
actions that `valid_action` accepted (via `do_action`). -/
inductive Reachable (tokens : List ArcNode) : ArcState → Prop where
  | init : ∀ C0, init_from_graph tokens = some C0 → Reachable tokens C0
  | step : ∀ C a C2, Reachable tokens C → valid_action C a = true →
      do_action C a = some C2 → Reachable tokens C2

/-- Inductive invariant for claim C8: on every reachable configuration no
buffer token has id 0 and no recorded relation has dependent id 0. -/
lemma reachable_no_root_dep (tokens : List ArcNode) (t0 : ArcNode) (rest : List ArcNode)
    (htok : tokens = t0 :: rest) (hids : ∀ t ∈ rest, t.id ≠ 0)
    (C : ArcState) (h : Reachable tokens C) :
    (∀ t ∈ C.buffer, t.id ≠ 0) ∧ (∀ p ∈ C.relations, p.2 ≠ 0) := by
  induction h with
  | init C0 hinit =>
    subst htok
    have hC0 : C0 = ⟨rest, [t0], []⟩ := by
      have : init_from_graph (t0 :: rest) = some ⟨rest, [t0], []⟩ := rfl
      rw [this] at hinit
      exact (Option.some_inj.mp hinit).symm
    subst hC0
    exact ⟨hids, by simp⟩
  | step C a C2 hre hv hdo ih =>
    obtain ⟨buf, stk, rels⟩ := C
    by_cases e1 : a = ARC_LEFT
    · subst e1
      rw [do_action_left] at hdo
      match stk, buf, hv, hdo with
      | s :: stk', b :: buf', hv, hdo =>
        have hC2 : C2 = ⟨b :: buf', stk', rels ++ [(b.id, s.id)]⟩ :=
          (Option.some_inj.mp hdo).symm
        subst hC2
        have hs0 : s.id ≠ 0 := by
          intro h0
          rw [show valid_action ⟨b :: buf', s :: stk', rels⟩ ARC_LEFT
              = (if s.id == 0 then false
                 else if rels.any (fun l => pyEqIntNode l.2 s) then false else true) from rfl,
            if_pos (by simp [h0])] at hv
          exact Bool.noConfusion hv
        refine ⟨ih.1, ?_⟩
        intro p hp
        rcases List.mem_append.mp hp with hp | hp
        · exact ih.2 p hp
        · rw [List.mem_singleton.mp hp]
          exact hs0
    · by_cases e2 : a = ARC_RIGHT
      · subst e2
        rw [do_action_right] at hdo
        match stk, buf, hv, hdo with
        | s :: stk', b :: buf', hv, hdo =>
          have hC2 : C2 = ⟨buf', b :: s :: stk', rels ++ [(s.id, b.id)]⟩ :=
            (Option.some_inj.mp hdo).symm
          subst hC2
          refine ⟨fun t ht => ih.1 t (List.mem_cons_of_mem b ht), ?_⟩
          intro p hp
          rcases List.mem_append.mp hp with hp | hp
          · exact ih.2 p hp
          · rw [List.mem_singleton.mp hp]
            exact ih.1 b (by simp)
      · by_cases e3 : a = SHIFT
        · subst e3
          rw [do_action_shift] at hdo
          match buf, hdo with
          | b :: buf', hdo =>
            have hC2 : C2 = ⟨buf', b :: stk, rels⟩ := (Option.some_inj.mp hdo).symm
            subst hC2
            exact ⟨fun t ht => ih.1 t (List.mem_cons_of_mem b ht), ih.2⟩
        · by_cases e4 : a = REDUCE
          · subst e4
            rw [do_action_reduce] at hdo
            match stk, hdo with
            | s :: stk', hdo =>
              have hC2 : C2 = ⟨buf, stk', rels⟩ := (Option.some_inj.mp hdo).symm
              subst hC2
              exact ⟨ih.1, ih.2⟩
          · exfalso
            have e1n : ¬a = 1 := by simpa [ARC_LEFT] using e1
            have e2n : ¬a = 2 := by simpa [ARC_RIGHT] using e2
            have e3n : ¬a = 3 := by simpa [SHIFT] using e3
            have e4n : ¬a = 4 := by simpa [REDUCE] using e4
            rw [show do_action ⟨buf, stk, rels⟩ a = none by
              simp [do_action, ARC_LEFT, ARC_RIGHT, SHIFT, REDUCE, e1n, e2n, e3n, e4n]] at hdo
            exact Option.noConfusion hdo

/-- Claim C8: in every configuration reachable from the initial
configuration by applying only actions accepted by `valid_action`, no
recorded arc has the root token (id 0) as its dependent. -/
theorem c8_root_never_dependent (tokens : List ArcNode) (t0 : ArcNode)
    (rest : List ArcNode) (htok : tokens = t0 :: rest) (hids : ∀ t ∈ rest, t.id ≠ 0)
    (C : ArcState) (h : Reachable tokens C) :
    C.relations.all (fun p => p.2 != 0) = true := by
  rw [List.all_eq_true]
  intro p hp
  have := (reachable_no_root_dep tokens t0 rest htok hids C h).2 p hp
  simpa using this

/-- State after one SHIFT from the example initial configuration. -/
def c8C1 : ArcState :=
  ⟨[⟨2, "saw", "VBD"⟩, ⟨3, "Alice", "NNP"⟩], [⟨1, "Bob", "NNP"⟩, ⟨0, "ROOT", "ROOT"⟩], []⟩

/-- State after SHIFT then LEFT from the example initial configuration:
its relation list holds the arc (2, 1). -/
def c8C2 : ArcState :=
  ⟨[⟨2, "saw", "VBD"⟩, ⟨3, "Alice", "NNP"⟩], [⟨0, "ROOT", "ROOT"⟩], [(2, 1)]⟩

/-- Witness for C8 on a two-step reachable configuration carrying an
arc. -/
theorem c8_root_never_dependent_witness :
    c8C2.relations.all (fun p => p.2 != 0) = true :=
  c8_root_never_dependent exTokens ⟨0, "ROOT", "ROOT"⟩
    [⟨1, "Bob", "NNP"⟩, ⟨2, "saw", "VBD"⟩, ⟨3, "Alice", "NNP"⟩] rfl (by decide) c8C2
    (Reachable.step c8C1 ARC_LEFT c8C2
      (Reachable.step exC0 SHIFT c8C1 (Reachable.init exC0 rfl) (by decide) (by decide))
      (by decide) (by decide))

/-- A typed store of Python list objects: the address of a list is its
index in the store, `list(x)` allocates a copy at a fresh address
(appending to the store), and in-place mutation (`append`, `pop`,
`insert`) overwrites the content at an existing address. -/
def storeGet {α : Type} (st : List (List α)) (a : Nat) : List α := st.getD a []

/-- Overwrite the list object stored at address `a`. -/
def storeSet {α : Type} (st : List (List α)) (a : Nat) (l : List α) : List (List α) :=
  st.set a l

lemma storeGet_append_old {α : Type} (st : List (List α)) (l : List α) (a : Nat)
    (ha : a < st.length) : storeGet (st ++ [l]) a = storeGet st a := by
  simp [storeGet]
  rw [List.getElem?_append, if_pos ha]

lemma storeGet_append_new {α : Type} (st : List (List α)) (l : List α) :
    storeGet (st ++ [l]) st.length = l := by
  simp [storeGet]

lemma storeGet_set_ne {α : Type} (st : List (List α)) (a b : Nat) (l : List α)
    (hne : a ≠ b) : storeGet (storeSet st a l) b = storeGet st b := by
  simp only [storeGet, storeSet, List.getD_eq_getElem?_getD]
  rw [List.getElem?_set_ne hne]

lemma storeGet_set_self {α : Type} (st : List (List α)) (a : Nat) (l : List α)
    (ha : a < st.length) : storeGet (storeSet st a l) a = l := by
  simp only [storeGet, storeSet, List.getD_eq_getElem?_getD]
  rw [List.getElem?_set_self ha]
  rfl

/-- The Python heap for one parse: a store of token-list objects (buffers
and stacks) and a store of relation-list objects. -/
structure PyHeap where
  tokLists : List (List ArcNode)
  relLists : List (List (Nat × Nat))

/-- An `ArcState` as Python holds it: three references into the heap. -/
structure PyArcState where
  buffer : Nat
  stack : Nat
  relations : Nat

/-- Token list stored at address `a`. -/
def getTok (h : PyHeap) (a : Nat) : List ArcNode := storeGet h.tokLists a

/-- Relation list stored at address `a`. -/
def getRel (h : PyHeap) (a : Nat) : List (Nat × Nat) := storeGet h.relLists a

/-- The value-level configuration a heap configuration denotes. -/
def derefState (C : PyArcState) (h : PyHeap) : ArcState :=
  ⟨getTok h C.buffer, getTok h C.stack, getRel h C.relations⟩

/-- Heap-level `arc_left`: copy the three lists into fresh addresses
(`new_buffer = list(self.buffer)` and so on), then mutate only the copies
(`new_rel.append(...)`, `new_stack.pop(0)`). -/
def arc_leftH (C : PyArcState) (h : PyHeap) : Option (PyArcState × PyHeap) :=
  let nb := h.tokLists.length
  let ns := h.tokLists.length + 1
  let nr := h.relLists.length
  let h1 : PyHeap := ⟨h.tokLists ++ [getTok h C.buffer] ++ [getTok h C.stack],
                      h.relLists ++ [getRel h C.relations]⟩
  match getTok h C.stack, getTok h C.buffer with
  | s :: _, b :: _ =>
    some (⟨nb, ns, nr⟩,
      ⟨storeSet h1.tokLists ns ((storeGet h1.tokLists ns).tail),
       storeSet h1.relLists nr (storeGet h1.relLists nr ++ [(b.id, s.id)])⟩)
  | _, _ => none

/-- Heap-level `arc_right`: copy, then `new_rel.append((s.id, b.id))`,
`new_buffer.pop(0)` and `new_stack.insert(0, b)` on the copies. -/
def arc_rightH (C : PyArcState) (h : PyHeap) : Option (PyArcState × PyHeap) :=
  let nb := h.tokLists.length
  let ns := h.tokLists.length + 1
  let nr := h.relLists.length
  let h1 : PyHeap := ⟨h.tokLists ++ [getTok h C.buffer] ++ [getTok h C.stack],
                      h.relLists ++ [getRel h C.relations]⟩
  match getTok h C.stack, getTok h C.buffer with
  | s :: _, b :: _ =>
    let t1 := storeSet h1.tokLists nb ((storeGet h1.tokLists nb).tail)
    let t2 := storeSet t1 ns (b :: storeGet t1 ns)
    some (⟨nb, ns, nr⟩,
      ⟨t2, storeSet h1.relLists nr (storeGet h1.relLists nr ++ [(s.id, b.id)])⟩)
  | _, _ => none

/-- Heap-level `shift`: copy, then `w = new_buffer.pop(0)` and
`new_stack.insert(0, w)` on the copies. -/
def shiftH (C : PyArcState) (h : PyHeap) : Option (PyArcState × PyHeap) :=
  let nb := h.tokLists.length
  let ns := h.tokLists.length + 1
  let nr := h.relLists.length
  let h1 : PyHeap := ⟨h.tokLists ++ [getTok h C.buffer] ++ [getTok h C.stack],
                      h.relLists ++ [getRel h C.relations]⟩
  match getTok h C.buffer with
  | w :: _ =>
    let t1 := storeSet h1.tokLists nb ((storeGet h1.tokLists nb).tail)
    let t2 := storeSet t1 ns (w :: storeGet t1 ns)
    some (⟨nb, ns, nr⟩, ⟨t2, h1.relLists⟩)
  | [] => none

/-- Heap-level `reduce`: copy, then `new_stack.pop(0)` on the copy. -/
def reduceH (C : PyArcState) (h : PyHeap) : Option (PyArcState × PyHeap) :=
  let nb := h.tokLists.length
  let ns := h.tokLists.length + 1
  let nr := h.relLists.length
  let h1 : PyHeap := ⟨h.tokLists ++ [getTok h C.buffer] ++ [getTok h C.stack],
                      h.relLists ++ [getRel h C.relations]⟩
  match getTok h C.stack with
  | _ :: _ =>
    some (⟨nb, ns, nr⟩,
      ⟨storeSet h1.tokLists ns ((storeGet h1.tokLists ns).tail), h1.relLists⟩)
  | [] => none

/-- Heap-level `do_action` dispatch. -/
def do_actionH (C : PyArcState) (h : PyHeap) (action : Nat) : Option (PyArcState × PyHeap) :=
  if action == ARC_LEFT then arc_leftH C h
  else if action == ARC_RIGHT then arc_rightH C h
  else if action == SHIFT then shiftH C h
  else if action == REDUCE then reduceH C h
  else none

/-- The configuration and heap produced by a successful heap-level
transition. -/
def applyH (C : PyArcState) (h : PyHeap) (a : Nat) : PyArcState × PyHeap :=
  (do_actionH C h a).getD (C, h)

lemma c9_left (C : PyArcState) (h : PyHeap)
    (hbuf : C.buffer < h.tokLists.length) (hstk : C.stack < h.tokLists.length)
    (hrel : C.relations < h.relLists.length)
    (hv : valid_action (derefState C h) ARC_LEFT = true) :
    do_actionH C h ARC_LEFT = some (applyH C h ARC_LEFT) ∧
    derefState C (applyH C h ARC_LEFT).2 = derefState C h ∧
    some (derefState (applyH C h ARC_LEFT).1 (applyH C h ARC_LEFT).2) =
      do_action (derefState C h) ARC_LEFT ∧
    (applyH C h ARC_LEFT).1.buffer ≠ C.buffer ∧
    (applyH C h ARC_LEFT).1.stack ≠ C.stack ∧
    (applyH C h ARC_LEFT).1.relations ≠ C.relations := by
  rcases hS : getTok h C.stack with _ | ⟨s, stk⟩
  · exfalso
    rw [show derefState C h =
      ⟨getTok h C.buffer, getTok h C.stack, getRel h C.relations⟩ from rfl, hS] at hv
    exact Bool.noConfusion hv
  rcases hB : getTok h C.buffer with _ | ⟨b, buf⟩
  · exfalso
    rw [show derefState C h =
      ⟨getTok h C.buffer, getTok h C.stack, getRel h C.relations⟩ from rfl, hS, hB] at hv
    exact Bool.noConfusion hv
  have hdo : do_actionH C h ARC_LEFT = some
      (⟨h.tokLists.length, h.tokLists.length + 1, h.relLists.length⟩,
       ⟨storeSet (h.tokLists ++ [b :: buf] ++ [s :: stk]) (h.tokLists.length + 1)
          ((storeGet (h.tokLists ++ [b :: buf] ++ [s :: stk])
            (h.tokLists.length + 1)).tail),
        storeSet (h.relLists ++ [getRel h C.relations]) h.relLists.length
          ((storeGet (h.relLists ++ [getRel h C.relations]) h.relLists.length)
            ++ [(b.id, s.id)])⟩) := by
    show arc_leftH C h = _
    simp only [arc_leftH, hS, hB]
  have happ : applyH C h ARC_LEFT =
      (⟨h.tokLists.length, h.tokLists.length + 1, h.relLists.length⟩,
       ⟨storeSet (h.tokLists ++ [b :: buf] ++ [s :: stk]) (h.tokLists.length + 1)
          ((storeGet (h.tokLists ++ [b :: buf] ++ [s :: stk])
            (h.tokLists.length + 1)).tail),
        storeSet (h.relLists ++ [getRel h C.relations]) h.relLists.length
          ((storeGet (h.relLists ++ [getRel h C.relations]) h.relLists.length)
            ++ [(b.id, s.id)])⟩) := by
    rw [applyH, hdo]
    rfl
  have e1 : (h.tokLists ++ [b :: buf]).length = h.tokLists.length + 1 := by simp
  have e2 : (h.tokLists ++ [b :: buf] ++ [s :: stk]).length = h.tokLists.length + 2 := by
    simp
  have hnew : storeGet (h.tokLists ++ [b :: buf] ++ [s :: stk])
      (h.tokLists.length + 1) = s :: stk := by
    rw [← e1, storeGet_append_new]
  have hnewrel : storeGet (h.relLists ++ [getRel h C.relations]) h.relLists.length =
      getRel h C.relations := storeGet_append_new _ _
  have hb2 : storeGet (storeSet (h.tokLists ++ [b :: buf] ++ [s :: stk])
      (h.tokLists.length + 1) ((storeGet (h.tokLists ++ [b :: buf] ++ [s :: stk])
        (h.tokLists.length + 1)).tail)) C.buffer = storeGet h.tokLists C.buffer := by
    rw [storeGet_set_ne _ _ _ _ (by omega),
      storeGet_append_old _ _ _ (by rw [e1]; omega),
      storeGet_append_old _ _ _ hbuf]
  have hs2 : storeGet (storeSet (h.tokLists ++ [b :: buf] ++ [s :: stk])
      (h.tokLists.length + 1) ((storeGet (h.tokLists ++ [b :: buf] ++ [s :: stk])
        (h.tokLists.length + 1)).tail)) C.stack = storeGet h.tokLists C.stack := by
    rw [storeGet_set_ne _ _ _ _ (by omega),
      storeGet_append_old _ _ _ (by rw [e1]; omega),
      storeGet_append_old _ _ _ hstk]
  have hr2 : storeGet (storeSet (h.relLists ++ [getRel h C.relations]) h.relLists.length
      ((storeGet (h.relLists ++ [getRel h C.relations]) h.relLists.length)
        ++ [(b.id, s.id)])) C.relations = storeGet h.relLists C.relations := by
    rw [storeGet_set_ne _ _ _ _ (by omega), storeGet_append_old _ _ _ hrel]
  have hnb : storeGet (storeSet (h.tokLists ++ [b :: buf] ++ [s :: stk])
      (h.tokLists.length + 1) ((storeGet (h.tokLists ++ [b :: buf] ++ [s :: stk])
        (h.tokLists.length + 1)).tail)) h.tokLists.length = b :: buf := by
    rw [storeGet_set_ne _ _ _ _ (by omega),
      storeGet_append_old _ _ _ (by rw [e1]; omega), storeGet_append_new]
  have hns : storeGet (storeSet (h.tokLists ++ [b :: buf] ++ [s :: stk])
      (h.tokLists.length + 1) ((storeGet (h.tokLists ++ [b :: buf] ++ [s :: stk])
        (h.tokLists.length + 1)).tail)) (h.tokLists.length + 1) = stk := by
    rw [storeGet_set_self _ _ _ (by rw [e2]; omega), hnew]
    rfl
  have hnr : storeGet (storeSet (h.relLists ++ [getRel h C.relations]) h.relLists.length
      ((storeGet (h.relLists ++ [getRel h C.relations]) h.relLists.length)
        ++ [(b.id, s.id)])) h.relLists.length
      = getRel h C.relations ++ [(b.id, s.id)] := by
    rw [storeGet_set_self _ _ _ (by simp), hnewrel]
  refine ⟨hdo.trans (by rw [happ]), ?_, ?_, ?_, ?_, ?_⟩
  · rw [happ]
    show (⟨storeGet _ C.buffer, storeGet _ C.stack, storeGet _ C.relations⟩ : ArcState) = _
    rw [hb2, hs2, hr2]
    rfl
  · rw [happ]
    show some (⟨storeGet _ h.tokLists.length, storeGet _ (h.tokLists.length + 1),
      storeGet _ h.relLists.length⟩ : ArcState) = _
    rw [hnb, hns, hnr]
    rw [show derefState C h =
      ⟨getTok h C.buffer, getTok h C.stack, getRel h C.relations⟩ from rfl, hS, hB,
      do_action_left]
    rfl
  · rw [happ]
    show h.tokLists.length ≠ C.buffer
    omega
  · rw [happ]
    show h.tokLists.length + 1 ≠ C.stack
    omega
  · rw [happ]
    show h.relLists.length ≠ C.relations
    omega

lemma storeSet_length {α : Type} (st : List (List α)) (a : Nat) (l : List α) :
    (storeSet st a l).length = st.length := by
  simp [storeSet]

lemma c9_right (C : PyArcState) (h : PyHeap)
    (hbuf : C.buffer < h.tokLists.length) (hstk : C.stack < h.tokLists.length)
    (hrel : C.relations < h.relLists.length)
    (hv : valid_action (derefState C h) ARC_RIGHT = true) :
    do_actionH C h ARC_RIGHT = some (applyH C h ARC_RIGHT) ∧
    derefState C (applyH C h ARC_RIGHT).2 = derefState C h ∧
    some (derefState (applyH C h ARC_RIGHT).1 (applyH C h ARC_RIGHT).2) =
      do_action (derefState C h) ARC_RIGHT ∧
    (applyH C h ARC_RIGHT).1.buffer ≠ C.buffer ∧
    (applyH C h ARC_RIGHT).1.stack ≠ C.stack ∧
    (applyH C h ARC_RIGHT).1.relations ≠ C.relations := by
  rcases hS : getTok h C.stack with _ | ⟨s, stk⟩
  · exfalso
    rw [show derefState C h =
      ⟨getTok h C.buffer, getTok h C.stack, getRel h C.relations⟩ from rfl, hS] at hv
    exact Bool.noConfusion hv
  rcases hB : getTok h C.buffer with _ | ⟨b, buf⟩
  · exfalso
    rw [show derefState C h =
      ⟨getTok h C.buffer, getTok h C.stack, getRel h C.relations⟩ from rfl, hS, hB] at hv
    exact Bool.noConfusion hv
  have e1 : (h.tokLists ++ [b :: buf]).length = h.tokLists.length + 1 := by simp
  have e2 : (h.tokLists ++ [b :: buf] ++ [s :: stk]).length = h.tokLists.length + 2 := by simp
  have hgetnb : storeGet (h.tokLists ++ [b :: buf] ++ [s :: stk]) h.tokLists.length = b :: buf := by
    rw [storeGet_append_old _ _ _ (by rw [e1]; omega), storeGet_append_new]
  have hgetns : storeGet (h.tokLists ++ [b :: buf] ++ [s :: stk]) (h.tokLists.length + 1) = s :: stk := by
    rw [← e1, storeGet_append_new]
  have hnewrel : storeGet (h.relLists ++ [getRel h C.relations]) h.relLists.length = getRel h C.relations :=
    storeGet_append_new _ _
  have ht1nb : storeGet (storeSet (h.tokLists ++ [b :: buf] ++ [s :: stk]) h.tokLists.length ((storeGet (h.tokLists ++ [b :: buf] ++ [s :: stk]) h.tokLists.length).tail)) h.tokLists.length = buf := by
    rw [storeGet_set_self _ _ _ (by rw [e2]; omega), hgetnb]
    rfl
  have ht1ns : storeGet (storeSet (h.tokLists ++ [b :: buf] ++ [s :: stk]) h.tokLists.length ((storeGet (h.tokLists ++ [b :: buf] ++ [s :: stk]) h.tokLists.length).tail)) (h.tokLists.length + 1) = s :: stk := by
    rw [storeGet_set_ne _ _ _ _ (by omega), hgetns]
  have hdo : do_actionH C h ARC_RIGHT = some
      (⟨h.tokLists.length, h.tokLists.length + 1, h.relLists.length⟩, ⟨storeSet (storeSet (h.tokLists ++ [b :: buf] ++ [s :: stk]) h.tokLists.length ((storeGet (h.tokLists ++ [b :: buf] ++ [s :: stk]) h.tokLists.length).tail)) (h.tokLists.length + 1) (b :: storeGet (storeSet (h.tokLists ++ [b :: buf] ++ [s :: stk]) h.tokLists.length ((storeGet (h.tokLists ++ [b :: buf] ++ [s :: stk]) h.tokLists.length).tail)) (h.tokLists.length + 1)), storeSet (h.relLists ++ [getRel h C.relations]) h.relLists.length ((storeGet (h.relLists ++ [getRel h C.relations]) h.relLists.length) ++ [(s.id, b.id)])⟩) := by
    show arc_rightH C h = _
    simp only [arc_rightH, hS, hB]
  have happ : applyH C h ARC_RIGHT =
      (⟨h.tokLists.length, h.tokLists.length + 1, h.relLists.length⟩, ⟨storeSet (storeSet (h.tokLists ++ [b :: buf] ++ [s :: stk]) h.tokLists.length ((storeGet (h.tokLists ++ [b :: buf] ++ [s :: stk]) h.tokLists.length).tail)) (h.tokLists.length + 1) (b :: storeGet (storeSet (h.tokLists ++ [b :: buf] ++ [s :: stk]) h.tokLists.length ((storeGet (h.tokLists ++ [b :: buf] ++ [s :: stk]) h.tokLists.length).tail)) (h.tokLists.length + 1)), storeSet (h.relLists ++ [getRel h C.relations]) h.relLists.length ((storeGet (h.relLists ++ [getRel h C.relations]) h.relLists.length) ++ [(s.id, b.id)])⟩) := by
    rw [applyH, hdo]
    rfl
  have hb2 : storeGet (storeSet (storeSet (h.tokLists ++ [b :: buf] ++ [s :: stk]) h.tokLists.length ((storeGet (h.tokLists ++ [b :: buf] ++ [s :: stk]) h.tokLists.length).tail)) (h.tokLists.length + 1) (b :: storeGet (storeSet (h.tokLists ++ [b :: buf] ++ [s :: stk]) h.tokLists.length ((storeGet (h.tokLists ++ [b :: buf] ++ [s :: stk]) h.tokLists.length).tail)) (h.tokLists.length + 1))) C.buffer = storeGet h.tokLists C.buffer := by
    rw [storeGet_set_ne _ _ _ _ (by omega), storeGet_set_ne _ _ _ _ (by omega),
      storeGet_append_old _ _ _ (by rw [e1]; omega), storeGet_append_old _ _ _ hbuf]
  have hs2 : storeGet (storeSet (storeSet (h.tokLists ++ [b :: buf] ++ [s :: stk]) h.tokLists.length ((storeGet (h.tokLists ++ [b :: buf] ++ [s :: stk]) h.tokLists.length).tail)) (h.tokLists.length + 1) (b :: storeGet (storeSet (h.tokLists ++ [b :: buf] ++ [s :: stk]) h.tokLists.length ((storeGet (h.tokLists ++ [b :: buf] ++ [s :: stk]) h.tokLists.length).tail)) (h.tokLists.length + 1))) C.stack = storeGet h.tokLists C.stack := by
    rw [storeGet_set_ne _ _ _ _ (by omega), storeGet_set_ne _ _ _ _ (by omega),
      storeGet_append_old _ _ _ (by rw [e1]; omega), storeGet_append_old _ _ _ hstk]
  have hr2 : storeGet (storeSet (h.relLists ++ [getRel h C.relations]) h.relLists.length ((storeGet (h.relLists ++ [getRel h C.relations]) h.relLists.length) ++ [(s.id, b.id)])) C.relations = storeGet h.relLists C.relations := by
    rw [storeGet_set_ne _ _ _ _ (by omega), storeGet_append_old _ _ _ hrel]
  have hnb : storeGet (storeSet (storeSet (h.tokLists ++ [b :: buf] ++ [s :: stk]) h.tokLists.length ((storeGet (h.tokLists ++ [b :: buf] ++ [s :: stk]) h.tokLists.length).tail)) (h.tokLists.length + 1) (b :: storeGet (storeSet (h.tokLists ++ [b :: buf] ++ [s :: stk]) h.tokLists.length ((storeGet (h.tokLists ++ [b :: buf] ++ [s :: stk]) h.tokLists.length).tail)) (h.tokLists.length + 1))) h.tokLists.length = buf := by
    rw [storeGet_set_ne _ _ _ _ (by omega), ht1nb]
  have hns : storeGet (storeSet (storeSet (h.tokLists ++ [b :: buf] ++ [s :: stk]) h.tokLists.length ((storeGet (h.tokLists ++ [b :: buf] ++ [s :: stk]) h.tokLists.length).tail)) (h.tokLists.length + 1) (b :: storeGet (storeSet (h.tokLists ++ [b :: buf] ++ [s :: stk]) h.tokLists.length ((storeGet (h.tokLists ++ [b :: buf] ++ [s :: stk]) h.tokLists.length).tail)) (h.tokLists.length + 1))) (h.tokLists.length + 1) = b :: s :: stk := by
    rw [storeGet_set_self _ _ _ (by rw [storeSet_length, e2]; omega), ht1ns]
  have hnr : storeGet (storeSet (h.relLists ++ [getRel h C.relations]) h.relLists.length ((storeGet (h.relLists ++ [getRel h C.relations]) h.relLists.length) ++ [(s.id, b.id)])) h.relLists.length
      = getRel h C.relations ++ [(s.id, b.id)] := by
    rw [storeGet_set_self _ _ _ (by simp), hnewrel]
  refine ⟨hdo.trans (by rw [happ]), ?_, ?_, ?_, ?_, ?_⟩
  · rw [happ]
    show (⟨storeGet _ C.buffer, storeGet _ C.stack, storeGet _ C.relations⟩ : ArcState) = _
    rw [hb2, hs2, hr2]
    rfl
  · rw [happ]
    show some (⟨storeGet _ h.tokLists.length, storeGet _ (h.tokLists.length + 1),
      storeGet _ h.relLists.length⟩ : ArcState) = _
    rw [hnb, hns, hnr]
    rw [show derefState C h =
      ⟨getTok h C.buffer, getTok h C.stack, getRel h C.relations⟩ from rfl, hS, hB,
      do_action_right]
    rfl
  · rw [happ]
    show h.tokLists.length ≠ C.buffer
    omega
  · rw [happ]
    show h.tokLists.length + 1 ≠ C.stack
    omega
  · rw [happ]
    show h.relLists.length ≠ C.relations
    omega

lemma c9_shift (C : PyArcState) (h : PyHeap)
    (hbuf : C.buffer < h.tokLists.length) (hstk : C.stack < h.tokLists.length)
    (hrel : C.relations < h.relLists.length)
    (hv : valid_action (derefState C h) SHIFT = true) :
    do_actionH C h SHIFT = some (applyH C h SHIFT) ∧
    derefState C (applyH C h SHIFT).2 = derefState C h ∧
    some (derefState (applyH C h SHIFT).1 (applyH C h SHIFT).2) =
      do_action (derefState C h) SHIFT ∧
    (applyH C h SHIFT).1.buffer ≠ C.buffer ∧
    (applyH C h SHIFT).1.stack ≠ C.stack ∧
    (applyH C h SHIFT).1.relations ≠ C.relations := by
  rcases hB : getTok h C.buffer with _ | ⟨b, buf⟩
  · exfalso
    rw [show derefState C h =
      ⟨getTok h C.buffer, getTok h C.stack, getRel h C.relations⟩ from rfl, hB] at hv
    exact Bool.noConfusion hv
  have e1 : (h.tokLists ++ [b :: buf]).length = h.tokLists.length + 1 := by simp
  have e2 : (h.tokLists ++ [b :: buf] ++ [getTok h C.stack]).length = h.tokLists.length + 2 := by simp
  have hgetnb : storeGet (h.tokLists ++ [b :: buf] ++ [getTok h C.stack]) h.tokLists.length = b :: buf := by
    rw [storeGet_append_old _ _ _ (by rw [e1]; omega), storeGet_append_new]
  have hgetns : storeGet (h.tokLists ++ [b :: buf] ++ [getTok h C.stack]) (h.tokLists.length + 1) = getTok h C.stack := by
    rw [← e1, storeGet_append_new]
  have hnewrel : storeGet (h.relLists ++ [getRel h C.relations]) h.relLists.length = getRel h C.relations :=
    storeGet_append_new _ _
  have ht1nb : storeGet (storeSet (h.tokLists ++ [b :: buf] ++ [getTok h C.stack]) h.tokLists.length ((storeGet (h.tokLists ++ [b :: buf] ++ [getTok h C.stack]) h.tokLists.length).tail)) h.tokLists.length = buf := by
    rw [storeGet_set_self _ _ _ (by rw [e2]; omega), hgetnb]
    rfl
  have ht1ns : storeGet (storeSet (h.tokLists ++ [b :: buf] ++ [getTok h C.stack]) h.tokLists.length ((storeGet (h.tokLists ++ [b :: buf] ++ [getTok h C.stack]) h.tokLists.length).tail)) (h.tokLists.length + 1) = getTok h C.stack := by
    rw [storeGet_set_ne _ _ _ _ (by omega), hgetns]
  have hdo : do_actionH C h SHIFT = some
      (⟨h.tokLists.length, h.tokLists.length + 1, h.relLists.length⟩, ⟨storeSet (storeSet (h.tokLists ++ [b :: buf] ++ [getTok h C.stack]) h.tokLists.length ((storeGet (h.tokLists ++ [b :: buf] ++ [getTok h C.stack]) h.tokLists.length).tail)) (h.tokLists.length + 1) (b :: storeGet (storeSet (h.tokLists ++ [b :: buf] ++ [getTok h C.stack]) h.tokLists.length ((storeGet (h.tokLists ++ [b :: buf] ++ [getTok h C.stack]) h.tokLists.length).tail)) (h.tokLists.length + 1)), h.relLists ++ [getRel h C.relations]⟩) := by
    show shiftH C h = _
    simp only [shiftH, hB]
  have happ : applyH C h SHIFT =
      (⟨h.tokLists.length, h.tokLists.length + 1, h.relLists.length⟩, ⟨storeSet (storeSet (h.tokLists ++ [b :: buf] ++ [getTok h C.stack]) h.tokLists.length ((storeGet (h.tokLists ++ [b :: buf] ++ [getTok h C.stack]) h.tokLists.length).tail)) (h.tokLists.length + 1) (b :: storeGet (storeSet (h.tokLists ++ [b :: buf] ++ [getTok h C.stack]) h.tokLists.length ((storeGet (h.tokLists ++ [b :: buf] ++ [getTok h C.stack]) h.tokLists.length).tail)) (h.tokLists.length + 1)), h.relLists ++ [getRel h C.relations]⟩) := by
    rw [applyH, hdo]
    rfl
  have hb2 : storeGet (storeSet (storeSet (h.tokLists ++ [b :: buf] ++ [getTok h C.stack]) h.tokLists.length ((storeGet (h.tokLists ++ [b :: buf] ++ [getTok h C.stack]) h.tokLists.length).tail)) (h.tokLists.length + 1) (b :: storeGet (storeSet (h.tokLists ++ [b :: buf] ++ [getTok h C.stack]) h.tokLists.length ((storeGet (h.tokLists ++ [b :: buf] ++ [getTok h C.stack]) h.tokLists.length).tail)) (h.tokLists.length + 1))) C.buffer = storeGet h.tokLists C.buffer := by
    rw [storeGet_set_ne _ _ _ _ (by omega), storeGet_set_ne _ _ _ _ (by omega),
      storeGet_append_old _ _ _ (by rw [e1]; omega), storeGet_append_old _ _ _ hbuf]
  have hs2 : storeGet (storeSet (storeSet (h.tokLists ++ [b :: buf] ++ [getTok h C.stack]) h.tokLists.length ((storeGet (h.tokLists ++ [b :: buf] ++ [getTok h C.stack]) h.tokLists.length).tail)) (h.tokLists.length + 1) (b :: storeGet (storeSet (h.tokLists ++ [b :: buf] ++ [getTok h C.stack]) h.tokLists.length ((storeGet (h.tokLists ++ [b :: buf] ++ [getTok h C.stack]) h.tokLists.length).tail)) (h.tokLists.length + 1))) C.stack = storeGet h.tokLists C.stack := by
    rw [storeGet_set_ne _ _ _ _ (by omega), storeGet_set_ne _ _ _ _ (by omega),
      storeGet_append_old _ _ _ (by rw [e1]; omega), storeGet_append_old _ _ _ hstk]
  have hr2 : storeGet (h.relLists ++ [getRel h C.relations]) C.relations = storeGet h.relLists C.relations :=
    storeGet_append_old _ _ _ hrel
  have hnb : storeGet (storeSet (storeSet (h.tokLists ++ [b :: buf] ++ [getTok h C.stack]) h.tokLists.length ((storeGet (h.tokLists ++ [b :: buf] ++ [getTok h C.stack]) h.tokLists.length).tail)) (h.tokLists.length + 1) (b :: storeGet (storeSet (h.tokLists ++ [b :: buf] ++ [getTok h C.stack]) h.tokLists.length ((storeGet (h.tokLists ++ [b :: buf] ++ [getTok h C.stack]) h.tokLists.length).tail)) (h.tokLists.length + 1))) h.tokLists.length = buf := by
    rw [storeGet_set_ne _ _ _ _ (by omega), ht1nb]
  have hns : storeGet (storeSet (storeSet (h.tokLists ++ [b :: buf] ++ [getTok h C.stack]) h.tokLists.length ((storeGet (h.tokLists ++ [b :: buf] ++ [getTok h C.stack]) h.tokLists.length).tail)) (h.tokLists.length + 1) (b :: storeGet (storeSet (h.tokLists ++ [b :: buf] ++ [getTok h C.stack]) h.tokLists.length ((storeGet (h.tokLists ++ [b :: buf] ++ [getTok h C.stack]) h.tokLists.length).tail)) (h.tokLists.length + 1))) (h.tokLists.length + 1) = b :: getTok h C.stack := by
    rw [storeGet_set_self _ _ _ (by rw [storeSet_length, e2]; omega), ht1ns]
  refine ⟨hdo.trans (by rw [happ]), ?_, ?_, ?_, ?_, ?_⟩
  · rw [happ]
    show (⟨storeGet _ C.buffer, storeGet _ C.stack, storeGet _ C.relations⟩ : ArcState) = _
    rw [hb2, hs2, hr2]
    rfl
  · rw [happ]
    show some (⟨storeGet _ h.tokLists.length, storeGet _ (h.tokLists.length + 1),
      storeGet _ h.relLists.length⟩ : ArcState) = _
    rw [hnb, hns, hnewrel]
    rw [show derefState C h =
      ⟨getTok h C.buffer, getTok h C.stack, getRel h C.relations⟩ from rfl, hB,
      do_action_shift]
    rfl
  · rw [happ]
    show h.tokLists.length ≠ C.buffer
    omega
  · rw [happ]
    show h.tokLists.length + 1 ≠ C.stack
    omega
  · rw [happ]
    show h.relLists.length ≠ C.relations
    omega

lemma c9_reduce (C : PyArcState) (h : PyHeap)
    (hbuf : C.buffer < h.tokLists.length) (hstk : C.stack < h.tokLists.length)
    (hrel : C.relations < h.relLists.length)
    (hv : valid_action (derefState C h) REDUCE = true) :
    do_actionH C h REDUCE = some (applyH C h REDUCE) ∧
    derefState C (applyH C h REDUCE).2 = derefState C h ∧
    some (derefState (applyH C h REDUCE).1 (applyH C h REDUCE).2) =
      do_action (derefState C h) REDUCE ∧
    (applyH C h REDUCE).1.buffer ≠ C.buffer ∧
    (applyH C h REDUCE).1.stack ≠ C.stack ∧
    (applyH C h REDUCE).1.relations ≠ C.relations := by
  rcases hS : getTok h C.stack with _ | ⟨s, stk⟩
  · exfalso
    rw [show derefState C h =
      ⟨getTok h C.buffer, getTok h C.stack, getRel h C.relations⟩ from rfl, hS] at hv
    exact Bool.noConfusion hv
  have e1 : (h.tokLists ++ [getTok h C.buffer]).length = h.tokLists.length + 1 := by simp
  have e2 : (h.tokLists ++ [getTok h C.buffer] ++ [s :: stk]).length = h.tokLists.length + 2 := by simp
  have hgetnb : storeGet (h.tokLists ++ [getTok h C.buffer] ++ [s :: stk]) h.tokLists.length = getTok h C.buffer := by
    rw [storeGet_append_old _ _ _ (by rw [e1]; omega), storeGet_append_new]
  have hgetns : storeGet (h.tokLists ++ [getTok h C.buffer] ++ [s :: stk]) (h.tokLists.length + 1) = s :: stk := by
    rw [← e1, storeGet_append_new]
  have hnewrel : storeGet (h.relLists ++ [getRel h C.relations]) h.relLists.length = getRel h C.relations :=
    storeGet_append_new _ _
  have hdo : do_actionH C h REDUCE = some
      (⟨h.tokLists.length, h.tokLists.length + 1, h.relLists.length⟩, ⟨storeSet (h.tokLists ++ [getTok h C.buffer] ++ [s :: stk]) (h.tokLists.length + 1) ((storeGet (h.tokLists ++ [getTok h C.buffer] ++ [s :: stk]) (h.tokLists.length + 1)).tail), h.relLists ++ [getRel h C.relations]⟩) := by
    show reduceH C h = _
    simp only [reduceH, hS]
  have happ : applyH C h REDUCE =
      (⟨h.tokLists.length, h.tokLists.length + 1, h.relLists.length⟩, ⟨storeSet (h.tokLists ++ [getTok h C.buffer] ++ [s :: stk]) (h.tokLists.length + 1) ((storeGet (h.tokLists ++ [getTok h C.buffer] ++ [s :: stk]) (h.tokLists.length + 1)).tail), h.relLists ++ [getRel h C.relations]⟩) := by
    rw [applyH, hdo]
    rfl
  have hb2 : storeGet (storeSet (h.tokLists ++ [getTok h C.buffer] ++ [s :: stk]) (h.tokLists.length + 1) ((storeGet (h.tokLists ++ [getTok h C.buffer] ++ [s :: stk]) (h.tokLists.length + 1)).tail)) C.buffer = storeGet h.tokLists C.buffer := by
    rw [storeGet_set_ne _ _ _ _ (by omega),
      storeGet_append_old _ _ _ (by rw [e1]; omega), storeGet_append_old _ _ _ hbuf]
  have hs2 : storeGet (storeSet (h.tokLists ++ [getTok h C.buffer] ++ [s :: stk]) (h.tokLists.length + 1) ((storeGet (h.tokLists ++ [getTok h C.buffer] ++ [s :: stk]) (h.tokLists.length + 1)).tail)) C.stack = storeGet h.tokLists C.stack := by
    rw [storeGet_set_ne _ _ _ _ (by omega),
      storeGet_append_old _ _ _ (by rw [e1]; omega), storeGet_append_old _ _ _ hstk]
  have hr2 : storeGet (h.relLists ++ [getRel h C.relations]) C.relations = storeGet h.relLists C.relations :=
    storeGet_append_old _ _ _ hrel
  have hnb : storeGet (storeSet (h.tokLists ++ [getTok h C.buffer] ++ [s :: stk]) (h.tokLists.length + 1) ((storeGet (h.tokLists ++ [getTok h C.buffer] ++ [s :: stk]) (h.tokLists.length + 1)).tail)) h.tokLists.length = getTok h C.buffer := by
    rw [storeGet_set_ne _ _ _ _ (by omega), hgetnb]
  have hns : storeGet (storeSet (h.tokLists ++ [getTok h C.buffer] ++ [s :: stk]) (h.tokLists.length + 1) ((storeGet (h.tokLists ++ [getTok h C.buffer] ++ [s :: stk]) (h.tokLists.length + 1)).tail)) (h.tokLists.length + 1) = stk := by
    rw [storeGet_set_self _ _ _ (by rw [e2]; omega), hgetns]
    rfl
  refine ⟨hdo.trans (by rw [happ]), ?_, ?_, ?_, ?_, ?_⟩
  · rw [happ]
    show (⟨storeGet _ C.buffer, storeGet _ C.stack, storeGet _ C.relations⟩ : ArcState) = _
    rw [hb2, hs2, hr2]
    rfl
  · rw [happ]
    show some (⟨storeGet _ h.tokLists.length, storeGet _ (h.tokLists.length + 1),
      storeGet _ h.relLists.length⟩ : ArcState) = _
    rw [hnb, hns, hnewrel]
    rw [show derefState C h =
      ⟨getTok h C.buffer, getTok h C.stack, getRel h C.relations⟩ from rfl, hS,
      do_action_reduce]
    rfl
  · rw [happ]
    show h.tokLists.length ≠ C.buffer
    omega
  · rw [happ]
    show h.tokLists.length + 1 ≠ C.stack
    omega
  · rw [happ]
    show h.relLists.length ≠ C.relations
    omega

/-- Claim C9: for every heap configuration with valid addresses and every
legal action, the heap-level transition succeeds, returns a configuration
whose three list addresses are all fresh (distinct from the predecessor
configuration addresses), leaves the contents referenced by the
predecessor unchanged, and denotes exactly the value-level `do_action`
result. -/
theorem c9_transition_no_aliasing (C : PyArcState) (h : PyHeap) (a : Nat)
    (ha : a ∈ ACTIONS)
    (hbuf : C.buffer < h.tokLists.length) (hstk : C.stack < h.tokLists.length)
    (hrel : C.relations < h.relLists.length)
    (hv : valid_action (derefState C h) a = true) :
    do_actionH C h a = some (applyH C h a) ∧
    derefState C (applyH C h a).2 = derefState C h ∧
    some (derefState (applyH C h a).1 (applyH C h a).2) =
      do_action (derefState C h) a ∧
    (applyH C h a).1.buffer ≠ C.buffer ∧ (applyH C h a).1.stack ≠ C.stack ∧
    (applyH C h a).1.relations ≠ C.relations := by
  simp only [ACTIONS, List.mem_cons, List.not_mem_nil, or_false] at ha
  rcases ha with rfl | rfl | rfl | rfl
  · exact c9_left C h hbuf hstk hrel hv
  · exact c9_right C h hbuf hstk hrel hv
  · exact c9_shift C h hbuf hstk hrel hv
  · exact c9_reduce C h hbuf hstk hrel hv

/-- A concrete two-object heap for the C9 witness. -/
def c9h : PyHeap := ⟨[[⟨1, "Bob", "NNP"⟩], [⟨0, "ROOT", "ROOT"⟩]], [[]]⟩

/-- A concrete heap configuration: buffer at address 0, stack at address 1,
relations at address 0. -/
def c9C : PyArcState := ⟨0, 1, 0⟩

/-- Witness for C9: a SHIFT on the concrete heap configuration. -/
theorem c9_transition_no_aliasing_witness :
    do_actionH c9C c9h SHIFT = some (applyH c9C c9h SHIFT) ∧
    derefState c9C (applyH c9C c9h SHIFT).2 = derefState c9C c9h ∧
    some (derefState (applyH c9C c9h SHIFT).1 (applyH c9C c9h SHIFT).2) =
      do_action (derefState c9C c9h) SHIFT ∧
    (applyH c9C c9h SHIFT).1.buffer ≠ c9C.buffer ∧
    (applyH c9C c9h SHIFT).1.stack ≠ c9C.stack ∧
    (applyH c9C c9h SHIFT).1.relations ≠ c9C.relations :=
  c9_transition_no_aliasing c9C c9h SHIFT (by decide) (by decide) (by decide)
    (by decide) (by decide)

end ArcEager
